import Mathlib

/-! Shallow embedding of the turn scheduler and combat resolution core of the
sulis repository (src/sulis_state/src/turn_manager.rs,
src/sulis_state/src/actor_state.rs), together with theorems settling the
frozen claims about it.

Machine integers: `u32` fields are modelled as `Nat`, `i32` fields as `Int`.
Where a claim quantifies over the full `u32` range and the `as i32` cast /
wrapping arithmetic matters (`add_hp` / `remove_hp`), the cast and the
wrap-around are modelled explicitly; elsewhere all values are kept inside
ranges on which `Int` and `i32` agree.
-/

namespace Sulis

/-- Constant bundle supplied by the external rules provider (`Module::rules()`).
Only the fields the embedded functions read are included. -/
structure Rules where
  base_ap : Nat
  max_ap : Nat
  min_overflow_ap : Int
  max_overflow_ap : Int
  initiative_roll_max : Nat
deriving Repr, DecidableEq

/-- The mutable AP-related portion of `ActorState`: `ap: u32` and
`overflow_ap: i32`. -/
structure ApState where
  ap : Nat
  overflow_ap : Int
deriving Repr, DecidableEq

/-- Embeds `ActorState::init_turn` (actor_state.rs lines 690-716).
`bonus_ap` is `self.stats.bonus_ap`.  The source computes
`ap = base_ap as i32 + overflow_ap`, resets or carries the overflow based on
that value, adds `bonus_ap`, clamps below at 0, casts to `u32` (exact, since
the value is non-negative at that point) and clamps above at `max_ap`. -/
def init_turn (r : Rules) (bonus_ap : Int) (s : ApState) : ApState :=
  let ap0 : Int := (r.base_ap : Int) + s.overflow_ap
  let overflow : Int := if ap0 < 0 then s.overflow_ap + (r.base_ap : Int) else 0
  let ap1 : Int := ap0 + bonus_ap
  let ap2 : Int := if ap1 < 0 then 0 else ap1
  let ap3 : Nat := if ap2.toNat > r.max_ap then r.max_ap else ap2.toNat
  { ap := ap3, overflow_ap := overflow }

/-- Embeds `ActorState::end_turn` (actor_state.rs lines 718-727): flush the
remaining AP into the overflow, clamped above at `max_overflow_ap` (there is
no lower clamp in the source), and zero the AP. -/
def end_turn (r : Rules) (s : ApState) : ApState :=
  let o : Int := s.overflow_ap + (s.ap : Int)
  let o' : Int := if o > r.max_overflow_ap then r.max_overflow_ap else o
  { ap := 0, overflow_ap := o' }

/-- The assign-then-clamp pattern shared by `set_overflow_ap` and
`change_overflow_ap` (actor_state.rs lines 604-624). -/
def clamp_overflow (r : Rules) (v : Int) : Int :=
  if v > r.max_overflow_ap then r.max_overflow_ap
  else if v < r.min_overflow_ap then r.min_overflow_ap
  else v

/-- Embeds `ActorState::set_overflow_ap` (actor_state.rs lines 604-613). -/
def set_overflow_ap (r : Rules) (v : Int) (s : ApState) : ApState :=
  { s with overflow_ap := clamp_overflow r v }

/-- Embeds `ActorState::change_overflow_ap` (actor_state.rs lines 615-624). -/
def change_overflow_ap (r : Rules) (v : Int) (s : ApState) : ApState :=
  { s with overflow_ap := clamp_overflow r (s.overflow_ap + v) }

/-- One call in a sequence of AP-mutating operations on an actor (claim C4). -/
inductive ApOp where
  | initTurn (bonus_ap : Int)
  | endTurn
  | setOverflow (v : Int)
  | changeOverflow (v : Int)
deriving Repr, DecidableEq

/-- Apply one AP operation. -/
def apply_ap_op (r : Rules) (s : ApState) : ApOp → ApState
  | .initTurn b => init_turn r b s
  | .endTurn => end_turn r s
  | .setOverflow v => set_overflow_ap r v s
  | .changeOverflow v => change_overflow_ap r v s

/-- Run a sequence of AP operations from a starting state. -/
def run_ap_ops (r : Rules) (s : ApState) (ops : List ApOp) : ApState :=
  ops.foldl (apply_ap_op r) s

/-- The AP invariant of spec section 8: `0 ≤ ap ≤ max_ap` and
`min_overflow_ap ≤ overflow_ap ≤ max_overflow_ap`. -/
def ApInv (r : Rules) (s : ApState) : Prop :=
  s.ap ≤ r.max_ap ∧ r.min_overflow_ap ≤ s.overflow_ap ∧ s.overflow_ap ≤ r.max_overflow_ap

instance (r : Rules) (s : ApState) : Decidable (ApInv r s) := by
  unfold ApInv; infer_instance

/-- Value of a `u32` reinterpreted as `i32` by Rust's `as i32` cast
(two's-complement wrap). -/
def u32_as_i32 (n : Nat) : Int :=
  if n % 2 ^ 32 < 2 ^ 31 then ((n % 2 ^ 32 : Nat) : Int)
  else ((n % 2 ^ 32 : Nat) : Int) - 2 ^ 32

/-- Wrap an integer into the `i32` range, the behaviour of overflowing `i32`
arithmetic in a release build. -/
def wrap_i32 (z : Int) : Int := (z + 2 ^ 31) % 2 ^ 32 - 2 ^ 31

/-- Embeds `ActorState::remove_hp` (actor_state.rs lines 636-644): the `u32`
damage argument is cast to `i32`; if it exceeds the current HP the HP is set
to 0, otherwise it is subtracted. -/
def remove_hp (hp : Int) (dmg : Nat) : Int :=
  let d : Int := u32_as_i32 dmg
  if d > hp then 0 else wrap_i32 (hp - d)

/-- Embeds `ActorState::add_hp` (actor_state.rs lines 646-655): the `u32`
healing argument is cast to `i32`; if the sum with the current HP exceeds
`stats.max_hp` the HP is set to `max_hp`, otherwise the amount is added. -/
def add_hp (max_hp hp : Int) (amt : Nat) : Int :=
  let a : Int := u32_as_i32 amt
  if wrap_i32 (a + hp) > max_hp then max_hp else wrap_i32 (hp + a)

/-- A turn-order queue entry (`Entry` in turn_manager.rs lines 30-34). -/
inductive Entry where
  | entity (idx : Nat)
  | effect (idx : Nat)
deriving Repr, DecidableEq

/-- The fixed per-round quantum `ROUND_TIME_MILLIS` (turn_manager.rs line 28). -/
def round_time_millis : Nat := 5000

/-- Modelled from the spec: the `Effect` type lives outside the given source
files; per spec section 3 an effect carries a remaining duration in simulated
milliseconds (or unlimited, here `none`) and a list of callback
registrations (represented by opaque numeric ids). `surface` records whether
the effect is surface-bound. -/
structure EffectM where
  remaining : Option Nat
  callbacks : List Nat
  surface : Bool
deriving Repr, DecidableEq

/-- Modelled from the spec: `Effect::update` ages the effect, reducing a
limited remaining duration by the elapsed milliseconds (saturating at 0). -/
def effect_update (e : EffectM) (millis : Nat) : EffectM :=
  { e with remaining := e.remaining.map (· - millis) }

/-- Modelled from the spec: `Effect::is_removal` holds once a limited
duration has expired. -/
def effect_is_removal (e : EffectM) : Bool :=
  e.remaining = some 0

/-- The per-entity state the scheduler reads and writes: party membership and
AI-active flag (`EntityState`), the marked-for-removal flag, the AP state of
its actor, the remaining durations of its ability states (spec-modelled, see
`entity_elapse_time`) and the indices of its active effects
(`ActorState::effects`). -/
structure EntityM where
  party_member : Bool
  ai_active : Bool
  marked : Bool
  ap_state : ApState
  ability_durations : List Nat
  effect_indices : List Nat
deriving Repr, DecidableEq

/-- The `TurnManager` state (turn_manager.rs lines 43-56): the entity and
effect arenas (soft-deleting slots hold `none`), the surface index list, the
turn-order queue, the deferred effect-removal queue and the combat-active
flag. -/
structure TM where
  entities : List (Option EntityM)
  effects : List (Option EffectM)
  surfaces : List Nat
  order : List Entry
  remove_queue : List Nat
  combat_active : Bool
deriving Repr, DecidableEq

/-- Embeds `TurnManager::update_effect` (turn_manager.rs lines 204-213): age
the effect in the given arena slot and report whether it is now due for
removal.  A `none` slot is left untouched (the source's `None` arm); the
source indexes the arena directly and every call site stays in range. -/
def update_effect_at (tm : TM) (index millis : Nat) : Bool × TM :=
  match tm.effects.get? index with
  | some (some e) =>
      let e' := effect_update e millis
      (effect_is_removal e', { tm with effects := tm.effects.set index (some e') })
  | _ => (false, tm)

/-- Embeds `TurnManager::current_is_active_entity` (turn_manager.rs lines
315-324): the queue front is an entity entry whose entity is a party member
or AI-active. -/
def current_is_active_entity (tm : TM) : Bool :=
  match tm.order.head? with
  | some (.entity i) =>
      match tm.entities.get? i with
      | some (some e) => e.party_member || e.ai_active
      | _ => false
  | _ => false

/-- Apply `ActorState::end_turn` to the entity in slot `i`, as the
`Entry::Entity` arm of `iterate_to_next_entity` does (`if let Some(entity) =
&self.entities[index] { ... end_turn() }`). -/
def end_turn_at (r : Rules) (es : List (Option EntityM)) (i : Nat) : List (Option EntityM) :=
  match es.get? i with
  | some (some e) => es.set i (some { e with ap_state := end_turn r e.ap_state })
  | _ => es

/-- Embeds the loop of `TurnManager::iterate_to_next_entity` (turn_manager.rs
lines 281-313), with explicit fuel standing in for the source's unbounded
`loop`; `none` means the fuel ran out or the queue was empty (the source's
`unreachable!`).  Effect callbacks collected by the source are not tracked;
the state transitions are. -/
def iterate_to_next_entity (r : Rules) : Nat → Bool → TM → Option TM
  | 0, _, _ => none
  | fuel + 1, current_ended, tm =>
    if current_ended && current_is_active_entity tm then some tm
    else
      match tm.order with
      | [] => none
      | front :: rest =>
        let tm1 := { tm with order := rest }
        match front with
        | .effect index =>
            let p := update_effect_at tm1 index round_time_millis
            let tm3 :=
              if p.1 then { p.2 with remove_queue := p.2.remove_queue ++ [index] }
              else { p.2 with order := p.2.order ++ [.effect index] }
            iterate_to_next_entity r fuel current_ended tm3
        | .entity index =>
            let tm2 := { tm1 with entities := end_turn_at r tm1.entities index,
                                  order := tm1.order ++ [.entity index] }
            iterate_to_next_entity r fuel true tm2

/-- Embeds `TurnManager::current` (turn_manager.rs lines 267-279), returning
the index of the current entity.  The source's `unreachable!` (an entity
entry at the front whose arena slot is empty) is modelled as `.error ()`. -/
def current_entity (tm : TM) : Except Unit (Option Nat) :=
  if !tm.combat_active then .ok none
  else
    match tm.order.head? with
    | some (.entity i) =>
        match tm.entities.get? i with
        | some (some _) => .ok (some i)
        | _ => .error ()
    | _ => .ok none

/-- The initiative-key assignment loop of `TurnManager::initiate_combat`
(turn_manager.rs lines 461-478), walking the queue from the back
(`self.order.iter().rev()`) and carrying `last_initiative` (initially 0).
`base_init i` is entity `i`'s `stats.initiative`; `roll i` is the value drawn
by `gen_range(0, initiative_roll_max)` for entity `i` (each living entity
appears at most once in the queue).  The argument list is the reversed
queue; the result is the key list in that same reversed order. -/
def keys_from_back (base_init roll : Nat → Int) : List Entry → Int → List Int
  | [], _ => []
  | .entity i :: rest, _ =>
      let last := base_init i + roll i
      2 * last :: keys_from_back base_init roll rest last
  | .effect _ :: rest, last =>
      (2 * last - 1) :: keys_from_back base_init roll rest last

/-- Stable insertion into a key-sorted list: the new element goes before the
first strictly larger key, so elements with equal keys keep their original
relative order, as Rust's stable `sort_by_key` does. -/
def insert_by_key (x : Entry × Int) : List (Entry × Int) → List (Entry × Int)
  | [] => [x]
  | y :: ys => if y.2 < x.2 then y :: insert_by_key x ys else x :: y :: ys

/-- Stable ascending sort by key, modelling `entries.sort_by_key`
(turn_manager.rs line 482). -/
def sort_by_key (l : List (Entry × Int)) : List (Entry × Int) :=
  l.foldr insert_by_key []

/-- Embeds the queue-rebuild portion of `TurnManager::initiate_combat`
(turn_manager.rs lines 458-483): compute the initiative keys, zip them with
the drained queue, sort ascending by key, then push each sorted entry onto
the FRONT of the empty queue (`push_front`), which reverses the sorted
order.  (Lines 485-494, resetting every entity's AP, do not touch the
queue and are not part of this definition.) -/
def initiate_combat_order (base_init roll : Nat → Int) (order : List Entry) : List Entry :=
  let keys := (keys_from_back base_init roll order.reverse 0).reverse
  let entries := order.zip keys
  ((sort_by_key entries).reverse).map Prod.fst

/-- Embeds `TurnManager::remove_from_surface` (turn_manager.rs lines
514-522): drop the surface's index from the entity's active-effect list
(`ActorState::remove_effect`, actor_state.rs lines 678-681; the stat
recomputation it triggers is outside this model).  A missing entity slot is
a no-op (`entity_checked` returning `None`). -/
def remove_from_surface (tm : TM) (entity_idx index : Nat) : TM :=
  match tm.entities.get? entity_idx with
  | some (some e) =>
      let e' := { e with effect_indices := e.effect_indices.filter (· ≠ index) }
      { tm with entities := tm.entities.set entity_idx (some e') }
  | _ => tm

/-- The retain predicate of `remove_effect` on the order queue: keep every
entry except effect entries for the removed index. -/
def order_keep (index : Nat) : Entry → Bool := fun en =>
  match en with
  | .effect i => i ≠ index
  | .entity _ => true

/-- Embeds `TurnManager::remove_effect` (turn_manager.rs lines 630-658).
`occ index` stands for the entity set returned by
`area.remove_surface(index, points)` for a surface-bound effect (the area
state is an external collaborator).  Returns the removal callbacks to invoke
(empty when the arena slot is already empty) and: unbinds occupying entities,
clears the arena slot, and drops the index from the order queue and the
surfaces list. -/
def remove_effect (occ : Nat → List Nat) (tm : TM) (index : Nat) : List Nat × TM :=
  let info : List Nat × List Nat :=
    match tm.effects.get? index with
    | some (some e) => (e.callbacks, if e.surface then occ index else [])
    | _ => ([], [])
  let tm1 := info.2.foldl (fun t ent => remove_from_surface t ent index) tm
  let tm2 := { tm1 with
    effects := tm1.effects.set index none,
    order := tm1.order.filter (order_keep index),
    surfaces := tm1.surfaces.filter (· ≠ index) }
  (info.1, tm2)

/-- Ages an entity by the elapsed time, embedding `ActorState::elapse_time`
(actor_state.rs lines 657-670): every ability state is updated (modelled
from the spec: `AbilityState::update` reduces a remaining duration,
saturating at 0) and the entity's effect list retains only indices whose
arena slot is still occupied (the stat recomputation on a change is outside
this model). -/
def entity_elapse_time (millis : Nat) (effects : List (Option EffectM)) (e : EntityM) : EntityM :=
  { e with
    ability_durations := e.ability_durations.map (· - millis),
    effect_indices := e.effect_indices.filter (fun i => ((effects.get? i).getD none).isSome) }

/-- Embeds the entity-removal bookkeeping of `TurnManager::remove_entity`
(turn_manager.rs lines 682-738) on the turn-manager state itself: queue all
of the entity's effects for deferred removal, clear the marked-for-removal
flag, and drop the entity's entry and its effects' entries from the order
queue.  The area-surface unbinding, HP zeroing, encounter-cleared
notification and the combat-deactivation check act on external state or on
fields the claims below never reach (every theorem about `update` assumes no
entity is marked for removal, so this branch stays unreached there). -/
def remove_entity_at (tm : TM) (index : Nat) : TM :=
  match tm.entities.get? index with
  | some (some e) =>
      let to_remove := e.effect_indices
      { tm with
        remove_queue := tm.remove_queue ++ to_remove,
        entities := tm.entities.set index (some { e with marked := false }),
        order := tm.order.filter (fun en => match en with
          | .entity i => i ≠ index
          | .effect i => !to_remove.contains i) }
  | _ => tm

/-- One iteration of the effect loop of `TurnManager::update`
(turn_manager.rs lines 187-193): age the effect in slot `i` and queue it for
deferred removal if it expired. -/
def eff_step (elapsed : Nat) (t : TM) (i : Nat) : TM :=
  let p := update_effect_at t i elapsed
  if p.1 then { p.2 with remove_queue := p.2.remove_queue ++ [i] } else p.2

/-- One iteration of the entity loop of `TurnManager::update`
(turn_manager.rs lines 195-199, via `update_entity`, lines 215-224): age the
entity in slot `i` and perform entity removal if it is marked for removal. -/
def ent_step (elapsed : Nat) (t : TM) (i : Nat) : TM :=
  match t.entities.get? i with
  | some (some e) =>
      let e' := entity_elapse_time elapsed t.effects e
      let t' := { t with entities := t.entities.set i (some e') }
      if e'.marked then remove_entity_at t' i else t'
  | _ => t

/-- Embeds `TurnManager::update` (turn_manager.rs lines 174-202): flush the
deferred effect removals queued on the previous tick (collecting their
removal callbacks), then age every effect and every entity by the elapsed
milliseconds if combat is inactive and by zero if it is active.  The
callbacks produced by effect aging are not tracked, the removal callbacks
are (first component of the result). -/
def update (occ : Nat → List Nat) (tm : TM) (elapsed_millis : Nat) : List Nat × TM :=
  let to_remove := tm.remove_queue
  let tm0 := { tm with remove_queue := [] }
  let flushed := to_remove.foldl
    (fun (acc : List Nat × TM) i =>
      let p := remove_effect occ acc.2 i
      (acc.1 ++ p.1, p.2)) ([], tm0)
  let elapsed := if !tm.combat_active then elapsed_millis else 0
  let t1 := (List.range flushed.2.effects.length).foldl (eff_step elapsed) flushed.2
  let t2 := (List.range t1.entities.length).foldl (ent_step elapsed) t1
  (flushed.1, t2)

/-- The discrete attack outcome (`HitKind` in sulis_rules, declared
`Miss, Graze, Hit, Crit` in that order). -/
inductive HitKind where
  | miss
  | graze
  | hit
  | crit
deriving Repr, DecidableEq

/-- Rank of a hit kind in the `Miss < Graze < Hit < Crit` order (the source
compares hit kinds with the derived ordering of the declaration). -/
def hit_rank : HitKind → Nat
  | .miss => 0
  | .graze => 1
  | .hit => 2
  | .crit => 3

/-- Renders a hit kind the way `format!("{:?}", hit_kind)` does. -/
def hit_kind_str : HitKind → String
  | .miss => "Miss"
  | .graze => "Graze"
  | .hit => "Hit"
  | .crit => "Crit"

/-- The two display colors the attack functions produce (`color::GRAY`,
`color::RED`). -/
inductive Color where
  | gray
  | red
deriving Repr, DecidableEq

/-- The attack kind (`AttackKind` in sulis_rules), which selects the defense
stat to roll against. -/
inductive AttackKind where
  | fortitude
  | reflex
  | will
  | melee
  | ranged
deriving Repr, DecidableEq

/-- The combat-relevant fields of a `StatList`.  The damage multipliers are
`f32` in the source; they are modelled as rationals, which is sound for the
claims below because no theorem depends on float rounding. -/
structure CombatStats where
  accuracy : Int
  defense : Int
  fortitude : Int
  reflex : Int
  will : Int
  concealment : Int
  concealment_ignore : Int
  graze_multiplier : Rat
  hit_multiplier : Rat
  crit_multiplier : Rat
deriving Repr, DecidableEq

/-- The portion of an actor the attack functions read and write: current HP
and the combat stats. -/
structure CombatActor where
  hp : Int
  stats : CombatStats
deriving Repr, DecidableEq

/-- The attack-specific bonus multipliers (`attack.bonuses`). -/
structure AttackBonuses where
  graze_multiplier : Rat
  hit_multiplier : Rat
  crit_multiplier : Rat
deriving Repr, DecidableEq

/-- An `Attack` as the resolution functions consume it: its kind, its bonus
multipliers, and the maximum value of its damage profile
(`attack.damage.max()`). -/
structure AttackM where
  kind : AttackKind
  bonuses : AttackBonuses
  damage_max : Nat
deriving Repr, DecidableEq

/-- The random rolls drawn during attack resolution, supplied as oracles:
`concealment_roll` is `rules.concealment_roll(concealment)` (sulis_rules,
outside the given files); `attack_roll` is `parent_stats.attack_roll(defense,
bonuses)` and returns the hit tier; `roll_damage` is
`attack.roll_damage(&target_armor, damage_multiplier)`, returning the
armor-mitigated damage amounts. -/
structure CombatRng where
  concealment_roll : Int → Bool
  attack_roll : Int → AttackBonuses → HitKind
  roll_damage : Rat → List Nat

/-- The defense value matched from the attack kind (actor_state.rs lines
373-381). -/
def defense_for (stats : CombatStats) : AttackKind → Int
  | .fortitude => stats.fortitude
  | .reflex => stats.reflex
  | .will => stats.will
  | .melee => stats.defense
  | .ranged => stats.defense

/-- The damage multiplier for a non-miss tier (actor_state.rs lines
386-397). -/
def multiplier_for (stats : CombatStats) (bonuses : AttackBonuses) : HitKind → Rat
  | .miss => 0
  | .graze => stats.graze_multiplier + bonuses.graze_multiplier
  | .hit => stats.hit_multiplier + bonuses.hit_multiplier
  | .crit => stats.crit_multiplier + bonuses.crit_multiplier

/-- Embeds `ActorState::attack_internal` (actor_state.rs lines 360-421).
Returns the (hit kind, total damage, description, color) tuple and the
resulting target state (`EntityState::remove_hp` forwards the damage total to
`ActorState::remove_hp`).  A failed concealment roll or a `Miss` tier
returns before any damage is rolled. -/
def attack_internal (rng : CombatRng) (parent target : CombatActor)
    (attack : AttackM) : (HitKind × Nat × String × Color) × CombatActor :=
  let concealment := max 0 (target.stats.concealment - parent.stats.concealment_ignore)
  if !rng.concealment_roll concealment then
    ((.miss, 0, "Concealment", .gray), target)
  else
    let defense := defense_for target.stats attack.kind
    match rng.attack_roll defense attack.bonuses with
    | .miss => ((.miss, 0, "Miss", .gray), target)
    | hit_kind =>
      let damage_multiplier := multiplier_for parent.stats attack.bonuses hit_kind
      let damage := rng.roll_damage damage_multiplier
      if !damage.isEmpty then
        let total := damage.foldl (· + ·) 0
        ((hit_kind, total, hit_kind_str hit_kind ++ ": " ++ toString total, .red),
         { target with hp := remove_hp target.hp total })
      else if attack.damage_max = 0 then
        ((hit_kind, 0, hit_kind_str hit_kind, .red), target)
      else
        ((hit_kind, 0, hit_kind_str hit_kind ++ ": " ++ toString 0, .gray), target)

/-- Embeds `ActorState::attack` (actor_state.rs lines 348-358): a target
already at HP ≤ 0 short-circuits to a no-op miss; otherwise resolve via
`attack_internal`.  The trailing `check_death` awards XP and loot through
external area state and does not change the target's HP, so it does not
appear in the state transition. -/
def attack (rng : CombatRng) (parent target : CombatActor)
    (atk : AttackM) : (HitKind × Nat × String × Color) × CombatActor :=
  if target.hp ≤ 0 then ((.miss, 0, "Miss", .gray), target)
  else attack_internal rng parent target atk

/-- Embeds `ActorState::weapon_attack` (actor_state.rs lines 275-346): a
target already at HP ≤ 0 short-circuits to a no-op miss; otherwise every
attack in the attacker's list is resolved independently, damages sum, the
best tier wins, descriptions concatenate with ", " and the color is the last
non-gray one.  `is_flanking` stands for the float-geometry flanking
detection (the angle test over `f32` coordinates) and `flank_adjust` for
`Attack::from(&attack, &parent.stats.flanking_bonuses)` (sulis_rules,
outside the given files).  The trailing `check_death` is external as in
`attack`. -/
def weapon_attack (rng : CombatRng) (is_flanking : Bool)
    (flank_adjust : AttackM → AttackM) (parent target : CombatActor)
    (attacks : List AttackM) : (HitKind × Nat × String × Color) × CombatActor :=
  if target.hp ≤ 0 then ((.miss, 0, "Miss", .gray), target)
  else
    let step := fun (acc : (Color × String × Bool × HitKind × Nat) × CombatActor) (atk : AttackM) =>
      let ((color, damage_str, not_first, hit_kind, total_damage), tgt) := acc
      let damage_str := if not_first then damage_str ++ ", " else damage_str
      let atk := if is_flanking then flank_adjust atk else atk
      let ((hk, dmg, attack_result, attack_color), tgt') := attack_internal rng parent tgt atk
      let color := if attack_color ≠ .gray then attack_color else color
      let damage_str := damage_str ++ attack_result
      let hit_kind := if hit_rank hk > hit_rank hit_kind then hk else hit_kind
      ((color, damage_str, true, hit_kind, total_damage + dmg), tgt')
    let r := attacks.foldl step ((.gray, "", false, .miss, 0), target)
    ((r.1.2.2.2.1, r.1.2.2.2.2, r.1.2.1, r.1.1), r.2)

/-! Concrete states used by the witnesses and counterexamples. -/

/-- Example rules bundle (`base_ap = 4` as in the spec's overflow scenario). -/
def rules_ex : Rules :=
  { base_ap := 4, max_ap := 10, min_overflow_ap := -10, max_overflow_ap := 10,
    initiative_roll_max := 3 }

/-- Base initiative stats for the initiative example: entity 0 has 5,
entity 1 has 1. -/
def base_init_ex : Nat → Int := fun i => if i = 0 then 5 else 1

/-- Random initiative rolls for the initiative example: entity 0 rolls 2,
entity 1 rolls 0 (both below `initiative_roll_max`). -/
def roll_ex : Nat → Int := fun i => if i = 0 then 2 else 0

/-- An AI-activated hostile (schedulable). -/
def ent_active : EntityM :=
  { party_member := false, ai_active := true, marked := false, ap_state := ⟨0, 0⟩,
    ability_durations := [], effect_indices := [] }

/-- An un-alerted hostile (neither party member nor AI-active), holding 3 AP. -/
def ent_straggler : EntityM :=
  { party_member := false, ai_active := false, marked := false, ap_state := ⟨3, 0⟩,
    ability_durations := [], effect_indices := [] }

/-- A party member (schedulable). -/
def ent_party : EntityM :=
  { party_member := true, ai_active := false, marked := false, ap_state := ⟨0, 0⟩,
    ability_durations := [], effect_indices := [] }

/-- A combat-active turn manager whose queue holds the active hostile, the
straggler and the party member, in that order. -/
def tm_c2 : TM :=
  { entities := [some ent_active, some ent_straggler, some ent_party],
    effects := [], surfaces := [], order := [.entity 0, .entity 1, .entity 2],
    remove_queue := [], combat_active := true }

/-! Claim C3: `init_turn` AP computation and overflow carry rule. -/

/-- C3: for every rules bundle, bonus and actor state, `init_turn` sets the
new turn's AP to `base_ap + overflow_ap + bonus_ap` clamped into
`[0, max_ap]`, and resets `overflow_ap` to 0 unless `base_ap + overflow_ap`
was negative, in which case `overflow_ap` is increased by `base_ap`; in
particular with `overflow_ap = -5`, `base_ap = 4` and zero bonus the
resulting AP is 0 and the overflow becomes -1. -/
theorem init_turn_ap_and_overflow (r : Rules) (b : Int) (s : ApState) :
    (((init_turn r b s).ap : Int)
        = min (r.max_ap : Int) (max 0 ((r.base_ap : Int) + s.overflow_ap + b))) ∧
    ((init_turn r b s).overflow_ap
        = if (r.base_ap : Int) + s.overflow_ap < 0 then s.overflow_ap + (r.base_ap : Int)
          else 0) ∧
    init_turn rules_ex 0 ⟨0, -5⟩ = ⟨0, -1⟩ := by
  refine ⟨?_, ?_, by decide⟩
  · unfold init_turn
    dsimp only
    split_ifs <;> omega
  · rfl

/-! Claim C10: `add_hp` clamping at `max_hp` and `remove_hp` flooring at 0. -/

/-- C10 counterexample: with `max_hp = 20` and starting HP `10 ≤ 20`, healing
by `2^31` does not produce `min(10 + 2^31, 20) = 20`: the `u32` amount is
reinterpreted as the negative `i32` `-2^31` and the HP drops to
-2147483638. -/
theorem add_hp_huge_amount_cex :
    (10 : Int) ≤ 20 ∧
    add_hp 20 10 (2 ^ 31) = -2147483638 ∧
    add_hp 20 10 (2 ^ 31) ≠ min ((10 : Int) + 2 ^ 31) 20 := by decide

/-- C10 amended: for healing amounts small enough that the `u32 → i32` cast
is value-preserving and the sum stays in `i32` range (`hp + amt < 2^31`),
`add_hp` yields exactly `min (hp + amt) max_hp` whenever the starting HP is
at most `max_hp`; and `remove_hp` with damage below `2^31` exceeding the
current HP yields exactly 0, never a negative value. -/
theorem add_remove_hp_amended :
    (∀ (max_hp hp : Int) (amt : Nat), 0 ≤ hp → hp ≤ max_hp →
      hp + (amt : Int) < 2 ^ 31 →
      add_hp max_hp hp amt = min (hp + (amt : Int)) max_hp) ∧
    (∀ (hp : Int) (dmg : Nat), (dmg : Int) < 2 ^ 31 → (dmg : Int) > hp →
      remove_hp hp dmg = 0) := by
  constructor
  · intro max_hp hp amt h0 hmax hrange
    have hc : u32_as_i32 amt = (amt : Int) := by unfold u32_as_i32; split <;> omega
    unfold add_hp
    rw [hc]
    have hw : wrap_i32 ((amt : Int) + hp) = (amt : Int) + hp := by unfold wrap_i32; omega
    have hw' : wrap_i32 (hp + (amt : Int)) = hp + (amt : Int) := by unfold wrap_i32; omega
    dsimp only
    rw [hw, hw']
    split_ifs <;> omega
  · intro hp dmg hsmall hbig
    have hc : u32_as_i32 dmg = (dmg : Int) := by unfold u32_as_i32; split <;> omega
    unfold remove_hp
    dsimp only
    rw [hc, if_pos hbig]

/-- C10 witness: the amended statement at concrete inputs — healing 5 from
HP 10 with `max_hp = 20` gives 15, and 7 damage against HP 5 gives 0. -/
theorem add_remove_hp_amended_witness :
    add_hp 20 10 5 = min ((10 : Int) + (5 : Nat)) 20 ∧ remove_hp 5 7 = 0 :=
  ⟨add_remove_hp_amended.1 20 10 5 (by decide) (by decide) (by decide),
   add_remove_hp_amended.2 5 7 (by decide) (by decide)⟩

/-! Claim C1: initiative keys and the rebuilt queue order on the
Inactive-to-Active transition. -/

/-- C1: evaluation of the queue rebuild of `initiate_combat` at a concrete
failing input.  The keys follow the source's formula — entity 1 gets
`2*(1+0) = 2`, entity 0 gets `2*(5+2) = 14`, and the effect walking from the
back right before entity 0 gets `2*(5+2) - 1 = 13` — but after the ascending
`sort_by_key` every entry is pushed onto the FRONT of the queue, so the
rebuilt queue is in DESCENDING key order and the effect ends up immediately
AFTER its owning entity, not strictly before it as the claim (and the
source's own comment) state. -/
theorem initiate_combat_order_eval :
    keys_from_back base_init_ex roll_ex
        ([Entry.effect 0, Entry.entity 0, Entry.entity 1].reverse) 0 = [2, 14, 13] ∧
    initiate_combat_order base_init_ex roll_ex [.effect 0, .entity 0, .entity 1]
      = [.entity 0, .effect 0, .entity 1] := by decide

/-! Claim C2: treatment of un-alerted hostiles in `iterate_to_next_entity`. -/

/-- C2 counterexample: advancing the turn from `tm_c2` (queue: active
hostile 0, un-alerted straggler 1, party member 2).  The straggler's entry is
passed over — it never becomes the current entity — but its turn IS ended:
the source's `Entry::Entity` arm calls `end_turn` on every popped entity
entry, so the straggler's 3 AP are flushed into its overflow
(`ap_state` goes from `⟨3, 0⟩` to `⟨0, 3⟩`), contradicting the claim that
`end_turn` is not called on it and it is left unmodified. -/
theorem iterate_ends_straggler_turn_cex :
    iterate_to_next_entity rules_ex 10 false tm_c2
      = some { tm_c2 with
          entities := [some ent_active,
                       some { ent_straggler with ap_state := ⟨0, 3⟩ },
                       some ent_party],
          order := [.entity 2, .entity 0, .entity 1] } ∧
    tm_c2.entities.get? 1
      ≠ some (some { ent_straggler with ap_state := ⟨0, 3⟩ }) := by decide

/-- C2 amended: when the queue front is an Entity entry for an entity that is
neither a party member nor AI-activated (after the current turn has ended),
the loop does not stop there, but the entry is not skipped untouched: one
loop step ends that entity's turn (`end_turn_at`) and requeues the entry at
the back, without ticking the entity or any effect; and whenever the loop
returns, the new front is an Entity entry for a schedulable entity (party
member or AI-active). -/
theorem iterate_skip_behavior :
    (∀ (r : Rules) (fuel : Nat) (tm : TM) (i : Nat) (rest : List Entry),
      tm.order = .entity i :: rest →
      current_is_active_entity tm = false →
      iterate_to_next_entity r (fuel + 1) true tm
        = iterate_to_next_entity r fuel true
            { tm with entities := end_turn_at r tm.entities i,
                      order := rest ++ [.entity i] }) ∧
    (∀ (r : Rules) (fuel : Nat) (ce : Bool) (tm tm' : TM),
      iterate_to_next_entity r fuel ce tm = some tm' →
      current_is_active_entity tm' = true) := by
  constructor
  · intro r fuel tm i rest h1 h2
    rw [iterate_to_next_entity, h2, h1]
    simp
  · intro r fuel
    induction fuel with
    | zero => intro ce tm tm' h; exact absurd h (by simp [iterate_to_next_entity])
    | succ n ih =>
      intro ce tm tm' h
      rw [iterate_to_next_entity] at h
      by_cases hc : (ce && current_is_active_entity tm) = true
      · rw [if_pos hc] at h
        injection h with h
        subst h
        exact ((Bool.and_eq_true _ _).mp hc).2
      · rw [if_neg hc] at h
        match ho : tm.order with
        | [] => rw [ho] at h; exact absurd h (by simp)
        | .effect index :: rest => rw [ho] at h; exact ih _ _ _ h
        | .entity index :: rest => rw [ho] at h; exact ih _ _ _ h

/-- Queue rotated so the un-alerted straggler is at the front and the
current turn has already ended. -/
def tm_w : TM := { tm_c2 with order := [.entity 1, .entity 2, .entity 0] }

/-- The state `iterate_to_next_entity` stops at from `tm_w`: the straggler's
turn was ended and the party member is now at the front. -/
def tm_w' : TM :=
  { tm_c2 with
    entities := [some ent_active,
                 some { ent_straggler with ap_state := ⟨0, 3⟩ },
                 some ent_party],
    order := [.entity 2, .entity 0, .entity 1] }

/-- C2 witness: the amended statement instantiated at `tm_w`. -/
theorem iterate_skip_behavior_witness :
    iterate_to_next_entity rules_ex 6 true tm_w
      = iterate_to_next_entity rules_ex 5 true
          { tm_w with entities := end_turn_at rules_ex tm_w.entities 1,
                      order := [.entity 2, .entity 0] ++ [.entity 1] } ∧
    current_is_active_entity tm_w' = true :=
  ⟨iterate_skip_behavior.1 rules_ex 5 tm_w 1 [.entity 2, .entity 0] rfl (by decide),
   iterate_skip_behavior.2 rules_ex 6 true tm_w tm_w' (by decide)⟩

/-! Claim C5: attacks on an already-dead target are no-op misses and the
attack functions are total. -/

/-- C5: `attack` and `weapon_attack` are total functions into the
(hit kind, damage, description, color) result type, and for a target already
at HP ≤ 0 both short-circuit to a no-op miss — `(Miss, 0, "Miss", gray)` —
leaving the target state unchanged, for every attacker, attack profile,
attack list and random oracle. -/
theorem attack_dead_target_noop (rng : CombatRng) (parent target : CombatActor)
    (atk : AttackM) (attacks : List AttackM) (is_flanking : Bool)
    (fa : AttackM → AttackM) (h : target.hp ≤ 0) :
    attack rng parent target atk = ((.miss, 0, "Miss", .gray), target) ∧
    weapon_attack rng is_flanking fa parent target attacks
      = ((.miss, 0, "Miss", .gray), target) := by
  unfold attack weapon_attack
  rw [if_pos h, if_pos h]
  exact ⟨rfl, rfl⟩

/-- Combat stats shared by the concrete combat witnesses. -/
def stats_ex : CombatStats :=
  { accuracy := 40, defense := 10, fortitude := 10, reflex := 10, will := 10,
    concealment := 0, concealment_ignore := 0,
    graze_multiplier := 1/2, hit_multiplier := 1, crit_multiplier := 2 }

/-- A healthy attacker. -/
def parent_ex : CombatActor := { hp := 30, stats := stats_ex }

/-- A target that is already dead (HP 0). -/
def target_dead : CombatActor := { hp := 0, stats := stats_ex }

/-- A live target. -/
def target_live : CombatActor := { hp := 10, stats := stats_ex }

/-- A melee attack with maximum damage 5 and no bonus multipliers. -/
def atk_ex : AttackM := { kind := .melee, bonuses := ⟨0, 0, 0⟩, damage_max := 5 }

/-- A melee attack whose damage profile cannot deal any damage. -/
def atk_zero : AttackM := { kind := .melee, bonuses := ⟨0, 0, 0⟩, damage_max := 0 }

/-- Rolls that pass concealment, score a Hit and deal 3 damage. -/
def rng_ex : CombatRng :=
  { concealment_roll := fun _ => true, attack_roll := fun _ _ => .hit,
    roll_damage := fun _ => [3] }

/-- Rolls that pass concealment but score a Miss (the damage oracle would
deal 7 if it were ever consulted). -/
def rng_miss : CombatRng :=
  { concealment_roll := fun _ => true, attack_roll := fun _ _ => .miss,
    roll_damage := fun _ => [7] }

/-- Rolls that pass concealment, score a Crit, with an empty damage roll. -/
def rng_zero : CombatRng :=
  { concealment_roll := fun _ => true, attack_roll := fun _ _ => .crit,
    roll_damage := fun _ => [] }

/-- C5 witness: the no-op miss at a concrete dead target. -/
theorem attack_dead_target_noop_witness :
    attack rng_ex parent_ex target_dead atk_ex
      = ((.miss, 0, "Miss", .gray), target_dead) ∧
    weapon_attack rng_ex false id parent_ex target_dead [atk_ex]
      = ((.miss, 0, "Miss", .gray), target_dead) :=
  attack_dead_target_noop rng_ex parent_ex target_dead atk_ex [atk_ex] false id
    (by decide)

/-! Claim C6: Miss deals zero damage; a zero-max attack reports its tier. -/

/-- C6: in `attack_internal`, a Miss tier always yields exactly zero damage
and an unchanged target, independently of the damage oracle (the damage roll
and the multipliers are never applied); and when the rolled damage is empty
and the attack's maximum possible damage is zero, the actual non-miss tier
is reported with zero damage and red color, not a generic miss. -/
theorem attack_internal_miss_and_zero_max (rng : CombatRng)
    (parent target : CombatActor) (atk : AttackM) :
    (rng.concealment_roll
        (max 0 (target.stats.concealment - parent.stats.concealment_ignore)) = true →
     rng.attack_roll (defense_for target.stats atk.kind) atk.bonuses = .miss →
     ∀ rd : Rat → List Nat,
       attack_internal { rng with roll_damage := rd } parent target atk
         = ((.miss, 0, "Miss", .gray), target)) ∧
    (∀ hk : HitKind,
     rng.concealment_roll
        (max 0 (target.stats.concealment - parent.stats.concealment_ignore)) = true →
     rng.attack_roll (defense_for target.stats atk.kind) atk.bonuses = hk →
     hk ≠ .miss →
     rng.roll_damage (multiplier_for parent.stats atk.bonuses hk) = [] →
     atk.damage_max = 0 →
     attack_internal rng parent target atk
       = ((hk, 0, hit_kind_str hk, .red), target)) := by
  constructor
  · intro h1 h2 rd
    unfold attack_internal
    dsimp only
    rw [h1, h2]
    rfl
  · intro hk h1 h2 hne hdmg hmax
    unfold attack_internal
    dsimp only
    rw [h1, h2]
    cases hk with
    | miss => exact absurd rfl hne
    | graze => simp [hdmg, hmax]
    | hit => simp [hdmg, hmax]
    | crit => simp [hdmg, hmax]

/-- C6 witness: a concrete Miss with a non-empty damage oracle still deals 0
and leaves the target alone; a concrete Crit with a zero-max attack reports
Crit with 0 damage. -/
theorem attack_internal_miss_and_zero_max_witness :
    attack_internal { rng_miss with roll_damage := fun _ => [7] } parent_ex
        target_live atk_ex = ((.miss, 0, "Miss", .gray), target_live) ∧
    attack_internal rng_zero parent_ex target_live atk_zero
      = ((.crit, 0, hit_kind_str .crit, .red), target_live) :=
  ⟨(attack_internal_miss_and_zero_max rng_miss parent_ex target_live atk_ex).1
      rfl rfl (fun _ => [7]),
   (attack_internal_miss_and_zero_max rng_zero parent_ex target_live atk_zero).2
      .crit rfl rfl (by decide) rfl rfl⟩

/-! Claim C9: when `current` returns an entity. -/

/-- C9: `current` returns `none` whenever combat is inactive, regardless of
the queue; while combat is active it returns `none` when the queue is empty
or its front is an Effect entry; and it yields an entity only when combat is
active and the queue front is an Entity entry (for that entity). -/
theorem current_entity_spec :
    (∀ tm : TM, tm.combat_active = false → current_entity tm = .ok none) ∧
    (∀ tm : TM, tm.combat_active = true →
      (tm.order.head? = none ∨ ∃ i, tm.order.head? = some (.effect i)) →
      current_entity tm = .ok none) ∧
    (∀ (tm : TM) (i : Nat), current_entity tm = .ok (some i) →
      tm.combat_active = true ∧ tm.order.head? = some (.entity i)) := by
  refine ⟨?_, ?_, ?_⟩
  · intro tm h
    unfold current_entity
    rw [h]
    rfl
  · intro tm hc hor
    unfold current_entity
    rw [hc]
    rcases hor with h | ⟨i, h⟩ <;> rw [h] <;> rfl
  · intro tm i h
    unfold current_entity at h
    split at h
    · exact absurd h (by simp)
    · rename_i hcond
      have hc : tm.combat_active = true := by
        simpa using hcond
      refine ⟨hc, ?_⟩
      split at h
      · rename_i j hj
        split at h
        · simp only [Except.ok.injEq, Option.some.injEq] at h
          rw [hj, h]
        · exact absurd h (by simp)
      · exact absurd h (by simp)

/-- A combat-inactive manager (same arena and queue as `tm_c2`). -/
def tm_inactive : TM := { tm_c2 with combat_active := false }

/-- A live effect with a finite duration and two callbacks. -/
def eff_ex : EffectM := { remaining := some 10000, callbacks := [1, 2], surface := false }

/-- A combat-active manager whose queue front is an Effect entry. -/
def tm_eff_front : TM :=
  { tm_c2 with effects := [some eff_ex], order := [.effect 0, .entity 0] }

/-- C9 witness: the three cases at concrete managers. -/
theorem current_entity_spec_witness :
    current_entity tm_inactive = .ok none ∧
    current_entity tm_eff_front = .ok none ∧
    (tm_c2.combat_active = true ∧ tm_c2.order.head? = some (.entity 0)) :=
  ⟨current_entity_spec.1 tm_inactive rfl,
   current_entity_spec.2.1 tm_eff_front rfl (Or.inr ⟨0, rfl⟩),
   current_entity_spec.2.2 tm_c2 0 rfl⟩

/-! Claim C4: the AP invariant under arbitrary call sequences. -/

/-- One AP operation preserves the AP invariant, provided the configured
overflow range contains 0 (so the reset `overflow_ap := 0` of `init_turn`
lands inside it). -/
theorem ap_inv_apply_op (r : Rules) (hmin : r.min_overflow_ap ≤ 0)
    (hmax : 0 ≤ r.max_overflow_ap) (s : ApState) (hs : ApInv r s) (op : ApOp) :
    ApInv r (apply_ap_op r s op) := by
  obtain ⟨h1, h2, h3⟩ := hs
  cases op with
  | initTurn b =>
      unfold apply_ap_op init_turn ApInv
      dsimp only
      refine ⟨?_, ?_, ?_⟩ <;> split_ifs <;> omega
  | endTurn =>
      unfold apply_ap_op end_turn ApInv
      dsimp only
      refine ⟨Nat.zero_le _, ?_, ?_⟩ <;> split_ifs <;> omega
  | setOverflow v =>
      unfold apply_ap_op set_overflow_ap clamp_overflow ApInv
      dsimp only
      refine ⟨h1, ?_, ?_⟩ <;> split_ifs <;> omega
  | changeOverflow v =>
      unfold apply_ap_op change_overflow_ap clamp_overflow ApInv
      dsimp only
      refine ⟨h1, ?_, ?_⟩ <;> split_ifs <;> omega

/-- C4: for every entity whose overflow AP starts within
`[min_overflow_ap, max_overflow_ap]` (entities are created with `ap = 0`),
after any sequence of `init_turn`, `end_turn`, `set_overflow_ap` and
`change_overflow_ap` calls, `0 ≤ ap ≤ max_ap` and
`min_overflow_ap ≤ overflow_ap ≤ max_overflow_ap` hold; the configured
overflow range is assumed to contain 0. -/
theorem ap_invariant_sequences (r : Rules) (ops : List ApOp) (ov0 : Int)
    (hmin : r.min_overflow_ap ≤ 0) (hmax : 0 ≤ r.max_overflow_ap)
    (hov0 : r.min_overflow_ap ≤ ov0) (hov1 : ov0 ≤ r.max_overflow_ap) :
    0 ≤ (run_ap_ops r ⟨0, ov0⟩ ops).ap ∧
    (run_ap_ops r ⟨0, ov0⟩ ops).ap ≤ r.max_ap ∧
    r.min_overflow_ap ≤ (run_ap_ops r ⟨0, ov0⟩ ops).overflow_ap ∧
    (run_ap_ops r ⟨0, ov0⟩ ops).overflow_ap ≤ r.max_overflow_ap := by
  have key : ∀ (l : List ApOp) (s : ApState), ApInv r s → ApInv r (run_ap_ops r s l) := by
    intro l
    induction l with
    | nil => intro s hs; exact hs
    | cons op rest ih =>
        intro s hs
        exact ih (apply_ap_op r s op) (ap_inv_apply_op r hmin hmax s hs op)
  have h := key ops ⟨0, ov0⟩ ⟨Nat.zero_le _, hov0, hov1⟩
  exact ⟨Nat.zero_le _, h.1, h.2.1, h.2.2⟩

/-- C4 witness: a concrete call sequence starting from overflow -5. -/
theorem ap_invariant_sequences_witness :
    0 ≤ (run_ap_ops rules_ex ⟨0, -5⟩
          [.initTurn 0, .endTurn, .setOverflow 42, .changeOverflow (-100),
           .initTurn 3]).ap ∧
    (run_ap_ops rules_ex ⟨0, -5⟩
          [.initTurn 0, .endTurn, .setOverflow 42, .changeOverflow (-100),
           .initTurn 3]).ap ≤ rules_ex.max_ap ∧
    rules_ex.min_overflow_ap ≤ (run_ap_ops rules_ex ⟨0, -5⟩
          [.initTurn 0, .endTurn, .setOverflow 42, .changeOverflow (-100),
           .initTurn 3]).overflow_ap ∧
    (run_ap_ops rules_ex ⟨0, -5⟩
          [.initTurn 0, .endTurn, .setOverflow 42, .changeOverflow (-100),
           .initTurn 3]).overflow_ap ≤ rules_ex.max_overflow_ap :=
  ap_invariant_sequences rules_ex
    [.initTurn 0, .endTurn, .setOverflow 42, .changeOverflow (-100), .initTurn 3]
    (-5) (by decide) (by decide) (by decide) (by decide)

/-! Claim C8: deferred removal of the same effect handle is idempotent. -/

/-- Setting a list slot to the value it already holds is the identity. -/
theorem list_set_of_get? {α : Type} (l : List α) (i : Nat) (a : α)
    (h : l.get? i = some a) : l.set i a = l := by
  apply List.ext
  intro n
  rw [List.get?_set]
  split_ifs with hin
  · subst hin; rw [h]; rfl
  · rfl

/-- Filtering twice with the same predicate filters once. -/
theorem filter_idem {α : Type} (p : α → Bool) (l : List α) :
    (l.filter p).filter p = l.filter p := by
  rw [List.filter_filter]
  simp [Bool.and_self]

/-- `remove_from_surface` only touches the entity arena. -/
theorem rfs_fields (t : TM) (e i : Nat) :
    (remove_from_surface t e i).effects = t.effects ∧
    (remove_from_surface t e i).order = t.order ∧
    (remove_from_surface t e i).surfaces = t.surfaces := by
  unfold remove_from_surface
  split <;> exact ⟨rfl, rfl, rfl⟩

/-- The surface-unbinding fold of `remove_effect` only touches the entity
arena. -/
theorem foldl_rfs_fields (i : Nat) : ∀ (l : List Nat) (t : TM),
    ((l.foldl (fun t ent => remove_from_surface t ent i) t).effects = t.effects ∧
     (l.foldl (fun t ent => remove_from_surface t ent i) t).order = t.order ∧
     (l.foldl (fun t ent => remove_from_surface t ent i) t).surfaces = t.surfaces) := by
  intro l
  induction l with
  | nil => intro t; exact ⟨rfl, rfl, rfl⟩
  | cons x xs ih =>
      intro t
      rw [List.foldl_cons]
      refine ⟨?_, ?_, ?_⟩
      · rw [(ih _).1, (rfs_fields t x i).1]
      · rw [(ih _).2.1, (rfs_fields t x i).2.1]
      · rw [(ih _).2.2, (rfs_fields t x i).2.2]

/-- C8: removing an effect handle a second time returns an empty callback
list and leaves the whole turn-manager state unchanged — in particular the
effects arena, the order queue and the surfaces list — so a double-queued
deferred removal never double-invokes removal callbacks. -/
theorem remove_effect_idem (occ : Nat → List Nat) (tm : TM) (idx : Nat)
    (h : idx < tm.effects.length) :
    remove_effect occ (remove_effect occ tm idx).2 idx
      = ([], (remove_effect occ tm idx).2) := by
  obtain ⟨a, ha⟩ : ∃ a, tm.effects.get? idx = some a := by
    rcases hg : tm.effects.get? idx with _ | a
    · rw [List.get?_eq_none] at hg; omega
    · exact ⟨a, rfl⟩
  have e1 : (remove_effect occ tm idx).2.effects = tm.effects.set idx none := by
    rw [remove_effect]; dsimp only; rw [(foldl_rfs_fields idx _ _).1]
  have e2 : (remove_effect occ tm idx).2.order = tm.order.filter (order_keep idx) := by
    rw [remove_effect]; dsimp only; rw [(foldl_rfs_fields idx _ _).2.1]
  have e3 : (remove_effect occ tm idx).2.surfaces = tm.surfaces.filter (· ≠ idx) := by
    rw [remove_effect]; dsimp only; rw [(foldl_rfs_fields idx _ _).2.2]
  have hget : (remove_effect occ tm idx).2.effects.get? idx = some none := by
    rw [e1, List.get?_set_eq, ha]; rfl
  conv_lhs => rw [remove_effect]
  rw [hget]
  simp only [List.foldl_nil]
  rw [list_set_of_get? _ _ _ hget]
  rw [e2, filter_idem, ← e2, e3, filter_idem, ← e3]

/-- C8 witness: idempotence at a concrete manager holding one live effect. -/
theorem remove_effect_idem_witness :
    remove_effect (fun _ => []) (remove_effect (fun _ => []) tm_eff_front 0).2 0
      = ([], (remove_effect (fun _ => []) tm_eff_front 0).2) :=
  remove_effect_idem (fun _ => []) tm_eff_front 0 (by decide)

/-! Claim C7: `update` ages by `elapsed_ms` out of combat and by zero in
combat. -/

/-- Aging by zero milliseconds leaves an effect unchanged. -/
theorem effect_update_zero (e : EffectM) : effect_update e 0 = e := by
  obtain ⟨r, c, s⟩ := e
  unfold effect_update
  cases r <;> simp

/-- Aging does not change an entity's marked-for-removal flag. -/
theorem elapse_marked (el : Nat) (E : List (Option EffectM)) (e : EntityM) :
    (entity_elapse_time el E e).marked = e.marked := rfl

/-- Pointwise description of one effect-aging step of `update`: slot `i` is
aged, everything else (entities, order, combat flag, arena size, other
slots) is untouched. -/
theorem eff_step_spec (el : Nat) (t : TM) (i : Nat) :
    (eff_step el t i).entities = t.entities ∧
    (eff_step el t i).order = t.order ∧
    (eff_step el t i).combat_active = t.combat_active ∧
    (eff_step el t i).effects.length = t.effects.length ∧
    ∀ j, (eff_step el t i).effects.get? j
      = if j = i then (t.effects.get? j).map (Option.map (effect_update · el))
        else t.effects.get? j := by
  rcases hg : t.effects.get? i with _ | oe
  · have hid : eff_step el t i = t := by
      unfold eff_step update_effect_at
      rw [hg]
      rfl
    rw [hid]
    refine ⟨rfl, rfl, rfl, rfl, ?_⟩
    intro j
    split_ifs with hj
    · subst hj; rw [hg]; rfl
    · rfl
  · rcases oe with _ | e
    · have hid : eff_step el t i = t := by
        unfold eff_step update_effect_at
        rw [hg]
        rfl
      rw [hid]
      refine ⟨rfl, rfl, rfl, rfl, ?_⟩
      intro j
      split_ifs with hj
      · subst hj; rw [hg]; rfl
      · rfl
    · have hval : eff_step el t i
          = if effect_is_removal (effect_update e el) = true
            then { t with effects := t.effects.set i (some (effect_update e el)),
                          remove_queue := t.remove_queue ++ [i] }
            else { t with effects := t.effects.set i (some (effect_update e el)) } := by
        unfold eff_step update_effect_at
        rw [hg]
      rw [hval]
      split_ifs with hr <;>
      · refine ⟨rfl, rfl, rfl, by dsimp only; rw [List.length_set], ?_⟩
        intro j
        dsimp only
        rw [List.get?_set]
        split_ifs with hj hj'
        · subst hj; rw [hg]; rfl
        · exact absurd hj.symm hj'
        · rename_i hj2; exact absurd hj2.symm hj
        · rfl

/-- The effect-aging loop of `update` over slots `0..n`: every slot below `n`
is aged, everything else is untouched. -/
theorem eff_phase_spec (el : Nat) : ∀ (n : Nat) (t : TM),
    (((List.range n).foldl (eff_step el) t).entities = t.entities ∧
     ((List.range n).foldl (eff_step el) t).order = t.order ∧
     ((List.range n).foldl (eff_step el) t).combat_active = t.combat_active ∧
     ((List.range n).foldl (eff_step el) t).effects.length = t.effects.length ∧
     ∀ j, ((List.range n).foldl (eff_step el) t).effects.get? j
       = if j < n then (t.effects.get? j).map (Option.map (effect_update · el))
         else t.effects.get? j) := by
  intro n
  induction n with
  | zero =>
      intro t
      refine ⟨rfl, rfl, rfl, rfl, ?_⟩
      intro j
      simp
  | succ m ih =>
      intro t
      rw [List.range_succ, List.foldl_append, List.foldl_cons, List.foldl_nil]
      obtain ⟨ih1, ih2, ih3, ih4, ih5⟩ := ih t
      obtain ⟨s1, s2, s3, s4, s5⟩ :=
        eff_step_spec el ((List.range m).foldl (eff_step el) t) m
      refine ⟨by rw [s1, ih1], by rw [s2, ih2], by rw [s3, ih3], by rw [s4, ih4], ?_⟩
      intro j
      rw [s5 j, ih5 j]
      by_cases hjm : j = m
      · subst hjm
        simp [Nat.lt_irrefl, Nat.lt_succ_self]
      · by_cases hjm' : j < m
        · simp [hjm, hjm', Nat.lt_succ_of_lt hjm']
        · have : ¬ j < m + 1 := by omega
          simp [hjm, hjm', this]

/-- Pointwise description of one entity-aging step of `update`, when the
entity in the touched slot is not marked for removal: slot `i` is aged,
everything else is untouched. -/
theorem ent_step_spec (el : Nat) (t : TM) (i : Nat)
    (hm : ∀ e, t.entities.get? i = some (some e) → e.marked = false) :
    (ent_step el t i).effects = t.effects ∧
    (ent_step el t i).combat_active = t.combat_active ∧
    (ent_step el t i).entities.length = t.entities.length ∧
    ∀ j, (ent_step el t i).entities.get? j
      = if j = i then (t.entities.get? j).map (Option.map (entity_elapse_time el t.effects))
        else t.entities.get? j := by
  rcases hg : t.entities.get? i with _ | oe
  · have hid : ent_step el t i = t := by
      unfold ent_step
      rw [hg]
    rw [hid]
    refine ⟨rfl, rfl, rfl, ?_⟩
    intro j
    split_ifs with hj
    · subst hj; rw [hg]; rfl
    · rfl
  · rcases oe with _ | e
    · have hid : ent_step el t i = t := by
        unfold ent_step
        rw [hg]
      rw [hid]
      refine ⟨rfl, rfl, rfl, ?_⟩
      intro j
      split_ifs with hj
      · subst hj; rw [hg]; rfl
      · rfl
    · have hmk : (entity_elapse_time el t.effects e).marked = false := by
        rw [elapse_marked]; exact hm e hg
      have hval : ent_step el t i
          = { t with entities := t.entities.set i (some (entity_elapse_time el t.effects e)) } := by
        unfold ent_step
        rw [hg]
        dsimp only
        rw [hmk]
        rfl
      rw [hval]
      refine ⟨rfl, rfl, by dsimp only; rw [List.length_set], ?_⟩
      intro j
      dsimp only
      rw [List.get?_set]
      split_ifs with hj hj'
      · subst hj; rw [hg]; rfl
      · exact absurd hj.symm hj'
      · rename_i hj2; exact absurd hj2.symm hj
      · rfl

/-- The entity-aging loop of `update` over slots `0..n`, when no live entity
is marked for removal: every slot below `n` is aged, the effects arena and
the combat flag are untouched. -/
theorem ent_phase_spec (el : Nat) : ∀ (n : Nat) (t : TM),
    (∀ i e, t.entities.get? i = some (some e) → e.marked = false) →
    (((List.range n).foldl (ent_step el) t).effects = t.effects ∧
     ∀ j, ((List.range n).foldl (ent_step el) t).entities.get? j
       = if j < n then (t.entities.get? j).map (Option.map (entity_elapse_time el t.effects))
         else t.entities.get? j) := by
  intro n
  induction n with
  | zero =>
      intro t _
      refine ⟨rfl, ?_⟩
      intro j
      simp
  | succ m ih =>
      intro t hm
      rw [List.range_succ, List.foldl_append, List.foldl_cons, List.foldl_nil]
      obtain ⟨ih1, ih2⟩ := ih t hm
      have hmT : ∀ e, ((List.range m).foldl (ent_step el) t).entities.get? m
          = some (some e) → e.marked = false := by
        intro e he
        rw [ih2 m] at he
        split_ifs at he with hlt
        · obtain ⟨o, ho, ho2⟩ := Option.map_eq_some'.mp he
          obtain ⟨e0, he0, he02⟩ := Option.map_eq_some'.mp ho2
          rw [← he02, elapse_marked]
          exact hm m e0 (by rw [ho, he0])
        · exact hm m e he
      obtain ⟨s1, s2, s3, s4⟩ :=
        ent_step_spec el ((List.range m).foldl (ent_step el) t) m hmT
      refine ⟨by rw [s1, ih1], ?_⟩
      intro j
      rw [s4 j, ih2 j, ih1]
      by_cases hjm : j = m
      · subst hjm
        simp [Nat.lt_irrefl, Nat.lt_succ_self]
      · by_cases hjm' : j < m
        · simp [hjm, hjm', Nat.lt_succ_of_lt hjm']
        · have : ¬ j < m + 1 := by omega
          simp [hjm, hjm', this]

/-- With an empty deferred-removal queue, `update` is exactly the two aging
loops run with the elapsed time gated on the combat flag. -/
theorem update_eq (occ : Nat → List Nat) (tm : TM) (em : Nat)
    (hq : tm.remove_queue = []) :
    update occ tm em
      = ([],
         (List.range
            (((List.range (({ tm with remove_queue := [] } : TM).effects.length)).foldl
                (eff_step (if !tm.combat_active then em else 0))
                { tm with remove_queue := [] }).entities.length)).foldl
           (ent_step (if !tm.combat_active then em else 0))
           ((List.range (({ tm with remove_queue := [] } : TM).effects.length)).foldl
              (eff_step (if !tm.combat_active then em else 0))
              { tm with remove_queue := [] })) := by
  rw [update, hq]
  rfl

/-- Pointwise characterization of `update` with an empty removal queue and no
entity marked for removal: every live arena slot is aged by the gated elapsed
time `el`, and out-of-range slots are untouched. -/
theorem update_char (occ : Nat → List Nat) (tm : TM) (em el : Nat)
    (hq : tm.remove_queue = [])
    (hm : ∀ i e, tm.entities.get? i = some (some e) → e.marked = false)
    (hel : (if !tm.combat_active then em else 0) = el) :
    (∀ j, (update occ tm em).2.effects.get? j
        = if j < tm.effects.length
          then (tm.effects.get? j).map (Option.map (effect_update · el))
          else tm.effects.get? j) ∧
    (∀ j, ∃ E, (update occ tm em).2.entities.get? j
        = if j < tm.entities.length
          then (tm.entities.get? j).map (Option.map (entity_elapse_time el E))
          else tm.entities.get? j) := by
  rw [update_eq occ tm em hq, hel]
  dsimp only
  have P := eff_phase_spec el tm.effects.length { tm with remove_queue := [] }
  obtain ⟨p1, p2, p3, p4, p5⟩ := P
  have hmT1 : ∀ i e,
      ((List.range tm.effects.length).foldl (eff_step el)
          { tm with remove_queue := [] }).entities.get? i = some (some e) →
      e.marked = false := by
    intro i e he
    rw [p1] at he
    exact hm i e he
  obtain ⟨q1, q2⟩ :=
    ent_phase_spec el
      (((List.range tm.effects.length).foldl (eff_step el)
          { tm with remove_queue := [] }).entities.length)
      ((List.range tm.effects.length).foldl (eff_step el)
          { tm with remove_queue := [] })
      hmT1
  constructor
  · intro j
    rw [q1, p5 j]
  · intro j
    refine ⟨((List.range tm.effects.length).foldl (eff_step el)
        { tm with remove_queue := [] }).effects, ?_⟩
    rw [q2 j, p1]

/-- C7: when the removal queue is empty and no entity is marked for removal,
`update(elapsed_ms)` with combat ACTIVE leaves the effects arena (in
particular every remaining duration) unchanged and leaves every entity's
ability states and AP untouched (everything is aged by zero); with combat
INACTIVE it ages every live effect by `elapsed_ms` and ages every live
entity's ability states by `elapsed_ms`. -/
theorem update_aging (occ : Nat → List Nat) (tm : TM) (em : Nat)
    (hq : tm.remove_queue = [])
    (hm : ∀ i e, tm.entities.get? i = some (some e) → e.marked = false) :
    (tm.combat_active = true →
      (update occ tm em).2.effects = tm.effects ∧
      ∀ i e, tm.entities.get? i = some (some e) →
        ∃ e', (update occ tm em).2.entities.get? i = some (some e') ∧
          e'.ability_durations = e.ability_durations ∧
          e'.ap_state = e.ap_state) ∧
    (tm.combat_active = false →
      (∀ i e, tm.effects.get? i = some (some e) →
        (update occ tm em).2.effects.get? i = some (some (effect_update e em))) ∧
      (∀ i e, tm.entities.get? i = some (some e) →
        ∃ e', (update occ tm em).2.entities.get? i = some (some e') ∧
          e'.ability_durations = e.ability_durations.map (· - em))) := by
  constructor
  · intro hca
    have hel : (if !tm.combat_active then em else 0) = 0 := by rw [hca]; rfl
    obtain ⟨c1, c2⟩ := update_char occ tm em 0 hq hm hel
    constructor
    · apply List.ext
      intro j
      rw [c1 j]
      split_ifs with hj
      · have h0 : (fun e => effect_update e 0) = id := funext fun e => effect_update_zero e
        rw [h0]
        simp
      · rfl
    · intro i e he
      obtain ⟨E, hE⟩ := c2 i
      obtain ⟨hi, -⟩ := List.get?_eq_some.mp he
      refine ⟨entity_elapse_time 0 E e, ?_, ?_, ?_⟩
      · rw [hE, if_pos hi, he]
        rfl
      · show (entity_elapse_time 0 E e).ability_durations = e.ability_durations
        unfold entity_elapse_time
        simp
      · rfl
  · intro hca
    have hel : (if !tm.combat_active then em else 0) = em := by rw [hca]; rfl
    obtain ⟨c1, c2⟩ := update_char occ tm em em hq hm hel
    constructor
    · intro i e he
      obtain ⟨hi, -⟩ := List.get?_eq_some.mp he
      rw [c1 i, if_pos hi, he]
      rfl
    · intro i e he
      obtain ⟨E, hE⟩ := c2 i
      obtain ⟨hi, -⟩ := List.get?_eq_some.mp he
      refine ⟨entity_elapse_time em E e, ?_, rfl⟩
      rw [hE, if_pos hi, he]
      rfl

/-- A live party entity with one running ability and one active effect. -/
def ent_u : EntityM :=
  { party_member := true, ai_active := false, marked := false, ap_state := ⟨2, 1⟩,
    ability_durations := [7000], effect_indices := [0] }

/-- A combat-active manager holding `ent_u` and one timed effect. -/
def tm_u : TM :=
  { entities := [some ent_u], effects := [some eff_ex], surfaces := [],
    order := [.effect 0, .entity 0], remove_queue := [], combat_active := true }

/-- C7 witness: with combat active, a tick does not change the effects
arena of `tm_u`. -/
theorem update_aging_witness :
    (update (fun _ => []) tm_u 1234).2.effects = tm_u.effects := by
  have hmw : ∀ i e, tm_u.entities.get? i = some (some e) → e.marked = false := by
    intro i e he
    cases i with
    | zero =>
        simp [tm_u] at he
        rw [← he]
        rfl
    | succ n => simp [tm_u] at he
  exact ((update_aging (fun _ => []) tm_u 1234 rfl hmw).1 rfl).1

end Sulis
